import Mathlib

/-!
Verification of the `shout` audio pipeline (shout_core + shout_tools).

Shallow embedding conventions:
* PCM samples are modelled as rationals (`ℚ`), the idealised arithmetic of the
  floating-point computation in the source; the claims proved here concern
  lengths, counts, control flow and exact per-frame arithmetic structure,
  none of which depend on rounding.
* Rust `Vec<f32>` becomes `List ℚ`; `usize` arithmetic becomes `Nat`
  arithmetic (Rust integer division `/` on `usize` is `Nat.div`).
* Fallible Rust code (`Result`) becomes `Except`.
* External library calls (symphonia, rubato, mel_spec) are modelled: either
  abstractly via parameters constrained by their documented contracts, or,
  where the spec pins down their behaviour, by definitions written from the
  spec (marked `Modelled from the spec:` in their doc comments).
-/

set_option autoImplicit false

namespace Shout

/-! ## Channel downmixer — src/shout_core/src/audio/decoder.rs lines 113–128

The Rust source:
```
let mono: Vec<f32> = if ch_in == 1 {
    interleaved_f32
} else {
    let frames = interleaved_f32.len() / ch_in;
    let mut out = Vec::with_capacity(frames);
    for f in 0..frames {
        let mut sum = 0.0f32;
        let base = f * ch_in;
        for c in 0..ch_in {
            sum += interleaved_f32[base + c];
        }
        out.push(sum / ch_in as f32);
    }
    out
};
```
-/

/-- Embedding of the downmix step of `decode_to_f32_mono_16k`: identity for
one channel, otherwise per-frame arithmetic mean over `ch` consecutive
interleaved samples, for `xs.length / ch` frames (Rust `usize` division). -/
def downmix (ch : Nat) (xs : List ℚ) : List ℚ :=
  if ch = 1 then xs
  else
    (List.range (xs.length / ch)).map (fun f =>
      (((List.range ch).map (fun c => xs.getD (f * ch + c) 0)).sum) / (ch : ℚ))

/-- The inner per-frame sum, read off the index arithmetic of the source. -/
def frameSum (ch : Nat) (xs : List ℚ) (f : Nat) : ℚ :=
  ((List.range ch).map (fun c => xs.getD (f * ch + c) 0)).sum

theorem downmix_ne_one {ch : Nat} (h : ch ≠ 1) (xs : List ℚ) :
    downmix ch xs =
      (List.range (xs.length / ch)).map (fun f => frameSum ch xs f / (ch : ℚ)) := by
  simp [downmix, frameSum, h]

theorem length_downmix {ch : Nat} (h : ch ≠ 1) (xs : List ℚ) :
    (downmix ch xs).length = xs.length / ch := by
  simp [downmix, h]

/-- Indices touched by frame `f` all lie strictly below `(n / ch) * ch`. -/
theorem frame_index_lt (ch n f c : Nat) (hf : f < n / ch) (hc : c < ch) :
    f * ch + c < (n / ch) * ch := by
  calc f * ch + c < f * ch + ch := by omega
    _ = (f + 1) * ch := by ring
    _ ≤ (n / ch) * ch := Nat.mul_le_mul_right ch (by omega)

/-- A slice of `ch` consecutive elements, written as drop/take, agrees with
the `getD`-indexed window used by the inner loop when it is in bounds. -/
theorem slice_eq_getD_window (xs : List ℚ) (s ch : Nat) (h : s + ch ≤ xs.length) :
    (xs.drop s).take ch = (List.range ch).map (fun c => xs.getD (s + c) 0) := by
  apply List.ext_getElem
  · simp; omega
  · intro i h1 h2
    have hi : i < ch := by simpa using h2
    have hsi : s + i < xs.length := by omega
    have hdrop : i < (xs.drop s).length := by simp; omega
    rw [List.getElem_take, List.getElem_drop]
    simp [hi, List.getD_eq_getElem?_getD, List.getElem?_eq_getElem hsi]

/-- The per-frame sum equals the sum of the corresponding contiguous slice of
the interleaved input, when the frame is fully in bounds. -/
theorem frameSum_eq_slice_sum (ch : Nat) (xs : List ℚ) (f : Nat)
    (h : f * ch + ch ≤ xs.length) :
    frameSum ch xs f = ((xs.drop (f * ch)).take ch).sum := by
  rw [frameSum, slice_eq_getD_window xs (f * ch) ch h]

/-- The downmix output, read at frame `f` in bounds, is the slice mean. -/
theorem downmix_getD {ch : Nat} (h1 : ch ≠ 1) (xs : List ℚ) (f : Nat)
    (hf : f < xs.length / ch) :
    (downmix ch xs).getD f 0 = ((xs.drop (f * ch)).take ch).sum / (ch : ℚ) := by
  have hb : f * ch + ch ≤ xs.length := by
    have := frame_index_lt ch xs.length f (ch - 1) hf (by
      have : ch ≠ 0 := by rintro rfl; simp at hf
      omega)
    have hle : (xs.length / ch) * ch ≤ xs.length := Nat.div_mul_le_self _ _
    have : ch ≠ 0 := by rintro rfl; simp at hf
    omega
  rw [downmix_ne_one h1, ← frameSum_eq_slice_sum ch xs f hb]
  have hmem : f < (List.range (xs.length / ch)).length := by simpa using hf
  rw [List.getD_eq_getElem?_getD, List.getElem?_map]
  simp [List.getElem?_range hf]

theorem downmix_take (ch : Nat) (h1 : ch ≠ 1) (xs : List ℚ) :
    downmix ch xs = downmix ch (xs.take ((xs.length / ch) * ch)) := by
  have hch : ch ≠ 0 ∨ ch = 0 := by omega
  rcases hch with hch | hch
  · have hle : (xs.length / ch) * ch ≤ xs.length := Nat.div_mul_le_self _ _
    have hlen : (xs.take ((xs.length / ch) * ch)).length = (xs.length / ch) * ch := by
      simp [hle]
    have hdiv : (xs.take ((xs.length / ch) * ch)).length / ch = xs.length / ch := by
      rw [hlen]
      exact Nat.mul_div_cancel _ (Nat.pos_of_ne_zero hch)
    rw [downmix_ne_one h1, downmix_ne_one h1, hdiv]
    apply List.map_congr_left
    intro f hf
    have hf' : f < xs.length / ch := by simpa using hf
    congr 1
    unfold frameSum
    congr 1
    apply List.map_congr_left
    intro c hc
    have hc' : c < ch := by simpa using hc
    have hidx : f * ch + c < (xs.length / ch) * ch := frame_index_lt ch xs.length f c hf' hc'
    have h2 : f * ch + c < xs.length := by omega
    rw [List.getD_eq_getElem?_getD, List.getD_eq_getElem?_getD,
      List.getElem?_take_of_lt hidx, List.getElem?_eq_getElem h2]
  · subst hch; simp [downmix, h1]

/-- C10 — For every interleaved input of any length n and channel count
c ≥ 2, also when c does not divide n, the downmix loop touches only indices
strictly below (n / c) * c (which is at most n, so never out of bounds),
yields output of length n / c (floor division), and the up-to-(c-1) trailing
samples of a partial final frame are dropped: the output is unchanged when
the input is truncated to (n / c) * c samples. -/
theorem downmix_safe_partial_frame (ch : Nat) (xs : List ℚ) (h2 : 2 ≤ ch) :
    (downmix ch xs).length = xs.length / ch ∧
    (xs.length / ch) * ch ≤ xs.length ∧
    (∀ f c, f < xs.length / ch → c < ch →
      f * ch + c < (xs.length / ch) * ch) ∧
    downmix ch xs = downmix ch (xs.take ((xs.length / ch) * ch)) := by
  have h1 : ch ≠ 1 := by omega
  refine ⟨length_downmix h1 xs, Nat.div_mul_le_self _ _, ?_, downmix_take ch h1 xs⟩
  intro f c hf hc
  exact frame_index_lt ch xs.length f c hf hc

/-- C10 witness: channel count 2 on a 3-sample input (partial final frame). -/
theorem downmix_safe_partial_frame_witness :
    (downmix 2 [1, 2, 3]).length = 1 ∧
    1 * 2 ≤ 3 ∧
    (∀ f c, f < 1 → c < 2 → f * 2 + c < 1 * 2) ∧
    downmix 2 [1, 2, 3] = downmix 2 ([1, 2, 3].take 2) := by
  have h := downmix_safe_partial_frame 2 [1, 2, 3] (by omega)
  simpa using h

/-- C7 — For channel_count = 1, the downmixer is the identity on the samples. -/
theorem downmix_one_channel_id (xs : List ℚ) : downmix 1 xs = xs := by
  simp [downmix]

/-- C4 — For channel_count ≥ 2 dividing the sample count, the downmix output
has length exactly input_length / channel_count, and the value at each frame
index f is the arithmetic mean of the ch consecutive interleaved samples of
that frame (their sum divided by ch, unweighted). -/
theorem downmix_mean (ch : Nat) (xs : List ℚ) (h2 : 2 ≤ ch)
    (_hdvd : ch ∣ xs.length) :
    (downmix ch xs).length = xs.length / ch ∧
    ∀ f, f < xs.length / ch →
      (downmix ch xs).getD f 0 = ((xs.drop (f * ch)).take ch).sum / (ch : ℚ) := by
  have h1 : ch ≠ 1 := by omega
  exact ⟨length_downmix h1 xs, fun f hf => downmix_getD h1 xs f hf⟩

/-- C4 witness: stereo input of two frames; mean of each frame. -/
theorem downmix_mean_witness :
    (downmix 2 [1, 3, 5, 9]).length = 4 / 2 ∧
    ∀ f, f < 4 / 2 →
      (downmix 2 [1, 3, 5, 9]).getD f 0 =
        (([1, 3, 5, 9].drop (f * 2)).take 2).sum / (2 : ℚ) := by
  have h := downmix_mean 2 [1, 3, 5, 9] (by omega) (by decide)
  simpa using h

/-! ## Sample-rate converter — src/shout_core/src/audio/decoder.rs lines 133–175

The Rust source:
```
const SR_OUT: usize = 16_000;
if sr_in as usize == SR_OUT { return Ok(mono); }
let mut resampler = Fft::<f32>::new(sr_in as usize, SR_OUT, 1024, 1, 1, FixedSync::Input)?;
let input_len_frames = mono.len();
let out_len_frames = resampler.process_all_needed_output_len(input_len_frames);
let mut out = vec![0.0f32; out_len_frames];
let (_frames_read, frames_written) =
    resampler.process_all_into_buffer(&input_adapter, &mut output_adapter, input_len_frames, None)?;
out.truncate(frames_written);
Ok(out)
```
The rubato `Fft` resampler is external library code; it is modelled
abstractly by `FftResamplerModel` below, whose two fields are exactly the
two methods the source calls. -/

/-- Abstract model of a constructed rubato FFT resampler:
`neededOutputLen n` models `process_all_needed_output_len(n)` and
`processAll input buffer` models `process_all_into_buffer`, returning
`none` on a conversion error and otherwise `some (frames_written, buffer
after the call)`. Rubato's contract (it writes into the caller's buffer,
so it cannot write more frames than the buffer holds, and it never changes
the buffer's length) enters the theorems as explicit hypotheses. -/
structure FftResamplerModel where
  neededOutputLen : Nat → Nat
  processAll : List ℚ → List ℚ → Option (Nat × List ℚ)

/-- Embedding of the resampling step of `decode_to_f32_mono_16k`:
pass-through at 16 kHz, otherwise estimate the needed output length,
preallocate a zero buffer of exactly that length, run the conversion, and
truncate to the frames actually written (`List.take` models
`Vec::truncate`). -/
def resampleTo16k (R : FftResamplerModel) (srIn : Nat) (mono : List ℚ) :
    Except String (List ℚ) :=
  if srIn = 16000 then .ok mono
  else
    let outLenFrames := R.neededOutputLen mono.length
    let out := List.replicate outLenFrames (0 : ℚ)
    match R.processAll mono out with
    | none => .error "resample error"
    | some (framesWritten, out2) => .ok (out2.take framesWritten)

/-- C6 — For a mono input already at 16000 Hz, the converter returns the
input unchanged: no resampler method is consulted at all (the result does
not depend on `R`). -/
theorem resampleTo16k_passthrough (R : FftResamplerModel) (mono : List ℚ) :
    resampleTo16k R 16000 mono = .ok mono := by
  simp [resampleTo16k]

/-- C3 — For a mono input at a rate other than 16000 Hz, the converter
preallocates a buffer of exactly the precomputed needed length, and when
the conversion succeeds having written `framesWritten ≤ neededOutputLen`
frames into that buffer (rubato's contract), the returned sequence is the
buffer truncated to length exactly `framesWritten`. -/
theorem resampleTo16k_estimate_truncate (R : FftResamplerModel)
    (srIn : Nat) (mono : List ℚ) (framesWritten : Nat) (out2 : List ℚ)
    (hne : srIn ≠ 16000)
    (hproc : R.processAll mono
        (List.replicate (R.neededOutputLen mono.length) (0 : ℚ)) =
      some (framesWritten, out2))
    (hlen : out2.length = R.neededOutputLen mono.length)
    (hfit : framesWritten ≤ R.neededOutputLen mono.length) :
    (List.replicate (R.neededOutputLen mono.length) (0 : ℚ)).length =
      R.neededOutputLen mono.length ∧
    resampleTo16k R srIn mono = .ok (out2.take framesWritten) ∧
    (out2.take framesWritten).length = framesWritten := by
  refine ⟨List.length_replicate _ _, ?_, ?_⟩
  · simp only [resampleTo16k, if_neg hne]
    rw [hproc]
  · rw [List.length_take, hlen]
    omega

/-- C3 witness: a concrete resampler model that reports a needed length of
n + 2 and writes n + 1 frames, on a 3-sample input at 48000 Hz. -/
theorem resampleTo16k_estimate_truncate_witness :
    (List.replicate ((5 : Nat)) (0 : ℚ)).length = 5 ∧
    resampleTo16k ⟨fun n => n + 2,
        fun inp buf => some (inp.length + 1, buf)⟩ 48000 [1, 2, 3] =
      .ok ((List.replicate 5 (0 : ℚ)).take 4) ∧
    ((List.replicate 5 (0 : ℚ)).take 4).length = 4 := by
  exact resampleTo16k_estimate_truncate
    ⟨fun n => n + 2, fun inp buf => some (inp.length + 1, buf)⟩
    48000 [1, 2, 3] 4 (List.replicate 5 (0 : ℚ))
    (by decide) (by rfl) (by simp) (by decide)

/-! ## Decoder packet loop — src/shout_core/src/audio/decoder.rs lines 64–108

The Rust source:
```
loop {
    let packet = match format.next_packet() {
        Ok(p) => p,
        Err(SymphoniaError::ResetRequired) => { return Err(...); }
        Err(SymphoniaError::IoError(_)) => break, // end of file
        Err(e) => return Err(e).context("error reading next packet"),
    };
    if packet.track_id() != track_id { continue; }
    let decoded = match decoder.decode(&packet) {
        Ok(d) => d,
        Err(SymphoniaError::IoError(_)) => continue,
        Err(SymphoniaError::DecodeError(_)) => continue,
        Err(SymphoniaError::ResetRequired) => { return Err(...); }
        Err(e) => return Err(e).context("unrecoverable decode error"),
    };
    input_sample_rate.get_or_insert(decoded.spec().rate);
    input_channels.get_or_insert(decoded.spec().channels.count());
    interleaved_f32.extend_from_slice(sbuf.samples());
}
let sr_in = input_sample_rate.ok_or_else(...)?;
let ch_in = input_channels.ok_or_else(...)?;
if interleaved_f32.is_empty() { return Err(anyhow!("decoded audio was empty")); }
```
The symphonia demuxer/decoder is external; we model the stream of outcomes
the two fallible calls can produce and embed the repository's match arms
exactly. -/

/-- The symphonia error variants the source's match arms distinguish. -/
inductive SymErr
  | ioError
  | decodeError
  | resetRequired
  | other
deriving DecidableEq

/-- What `decoder.decode(&packet)` yields for one packet: a decoded buffer
carrying a signal spec (rate, channel count) and interleaved samples, or an
error variant. -/
inductive DecodeOutcome
  | ok (rate : Nat) (chans : Nat) (samples : List ℚ)
  | err (e : SymErr)

/-- One packet as handed out by `format.next_packet()`. -/
structure Packet where
  trackId : Nat
  outcome : DecodeOutcome

/-- One iteration's input: a packet, or an error from `next_packet()`. -/
inductive ReadEvent
  | packet (p : Packet)
  | readErr (e : SymErr)

/-- The mutable state of the decode loop: the interleaved sample
accumulator and the two resolved-metadata options. -/
structure LoopState where
  samples : List ℚ
  rate : Option Nat
  chans : Option Nat

/-- The error taxonomy of `decode_to_f32_mono_16k`'s decode section. -/
inductive DecoderError
  | resetRequired
  | readError
  | unrecoverableDecode
  | unknownSampleRate
  | unknownChannelCount
  | emptyAudio
deriving DecidableEq

/-- The loop state on entry: an empty accumulator, the sample rate from the
container's codec parameters when declared (`track.codec_params.sample_rate`),
and no channel count (the source initialises `input_channels` to `None` and
only ever fills it from a decoded buffer). -/
def initState (containerRate : Option Nat) : LoopState :=
  ⟨[], containerRate, none⟩

/-- Embedding of the packet loop: processes read events in order, matching
the source's arms. An `IoError` from `next_packet` ends the loop normally;
`ResetRequired` anywhere is fatal; `IoError` or `DecodeError` from `decode`
skips the packet; packets of other tracks are skipped; a decoded buffer
updates the metadata options via `get_or_insert` and appends its samples. -/
def decodeLoop (trackId : Nat) (st : LoopState) :
    List ReadEvent → Except DecoderError LoopState
  | [] => .ok st
  | .readErr .ioError :: _ => .ok st
  | .readErr .resetRequired :: _ => .error .resetRequired
  | .readErr .decodeError :: _ => .error .readError
  | .readErr .other :: _ => .error .readError
  | .packet p :: rest =>
    if p.trackId ≠ trackId then decodeLoop trackId st rest
    else
      match p.outcome with
      | .ok r c s =>
        decodeLoop trackId
          ⟨st.samples ++ s, some (st.rate.getD r), some (st.chans.getD c)⟩ rest
      | .err .ioError => decodeLoop trackId st rest
      | .err .decodeError => decodeLoop trackId st rest
      | .err .resetRequired => .error .resetRequired
      | .err .other => .error .unrecoverableDecode

/-- Embedding of the post-loop checks, in the source's order: unwrap the
sample rate, then the channel count, then reject an empty accumulator. -/
def finishDecode (st : LoopState) : Except DecoderError (Nat × Nat × List ℚ) :=
  match st.rate with
  | none => .error .unknownSampleRate
  | some sr =>
    match st.chans with
    | none => .error .unknownChannelCount
    | some ch =>
      if st.samples = [] then .error .emptyAudio
      else .ok (sr, ch, st.samples)

/-- C5 — In the packet loop, a transient decode error (`IoError` or
`DecodeError` from `decode`) on an own-track packet is skipped and the loop
continues with the remaining events, never aborting; `ResetRequired`, from
either `next_packet` or `decode`, aborts the file with the fatal
reset-required error; and an `IoError` from `next_packet` (end of stream)
terminates the loop normally with the state accumulated so far. -/
theorem decodeLoop_error_policy (tid : Nat) (st : LoopState)
    (rest : List ReadEvent) :
    (decodeLoop tid st (.packet ⟨tid, .err .ioError⟩ :: rest) =
      decodeLoop tid st rest) ∧
    (decodeLoop tid st (.packet ⟨tid, .err .decodeError⟩ :: rest) =
      decodeLoop tid st rest) ∧
    (decodeLoop tid st (.packet ⟨tid, .err .resetRequired⟩ :: rest) =
      .error .resetRequired) ∧
    (decodeLoop tid st (.readErr .resetRequired :: rest) =
      .error .resetRequired) ∧
    (decodeLoop tid st (.readErr .ioError :: rest) = .ok st) := by
  refine ⟨?_, ?_, ?_, rfl, rfl⟩ <;> simp [decodeLoop]

/-- C8 — After the loop, the decoder fails with `unknownSampleRate` when
neither the container parameters nor a decoded buffer resolved the rate,
fails with `unknownChannelCount` when the rate is known but no decoded
buffer resolved the channel count, fails with `emptyAudio` when both are
known but the loop accumulated no samples at all, and any `ok` result
carries a non-empty sample sequence. -/
theorem finishDecode_checks (st : LoopState) :
    (st.rate = none → finishDecode st = .error .unknownSampleRate) ∧
    (st.rate ≠ none → st.chans = none →
      finishDecode st = .error .unknownChannelCount) ∧
    (st.rate ≠ none → st.chans ≠ none → st.samples = [] →
      finishDecode st = .error .emptyAudio) ∧
    (∀ sr ch s, finishDecode st = .ok (sr, ch, s) → s ≠ []) := by
  obtain ⟨xs, r, c⟩ := st
  refine ⟨?_, ?_, ?_, ?_⟩
  · rintro rfl; rfl
  · rintro hr rfl
    cases r with
    | none => exact absurd rfl hr
    | some sr => rfl
  · rintro hr hc rfl
    cases r with
    | none => exact absurd rfl hr
    | some sr =>
      cases c with
      | none => exact absurd rfl hc
      | some ch => rfl
  · intro sr ch s hok
    cases r with
    | none => exact absurd hok (by simp [finishDecode])
    | some r0 =>
      cases c with
      | none => exact absurd hok (by simp [finishDecode])
      | some c0 =>
        by_cases hxs : xs = []
        · subst hxs; exact absurd hok (by simp [finishDecode])
        · simp only [finishDecode, if_neg hxs] at hok
          cases hok
          exact hxs

/-- C8 witness: the three failure shapes at concrete states, and
non-emptiness of a concrete successful result. -/
theorem finishDecode_checks_witness :
    finishDecode ⟨[], none, none⟩ = .error .unknownSampleRate ∧
    finishDecode ⟨[], some 44100, none⟩ = .error .unknownChannelCount ∧
    finishDecode ⟨[], some 44100, some 2⟩ = .error .emptyAudio ∧
    ((1 : ℚ) :: [] ≠ []) := by
  refine ⟨(finishDecode_checks ⟨[], none, none⟩).1 rfl,
    (finishDecode_checks ⟨[], some 44100, none⟩).2.1 (by simp) rfl,
    (finishDecode_checks ⟨[], some 44100, some 2⟩).2.2.1 (by simp) (by simp) rfl,
    (finishDecode_checks ⟨[1], some 44100, some 2⟩).2.2.2 44100 2 [1] rfl⟩

/-! ## Spectral framer and mel assembler — src/shout_core/src/audio/mel.rs

The Rust source:
```
pub fn pcm_to_mel_frames_flat(pcm_16k_mono: &[f32], n_mels: usize) -> (Vec<f32>, usize) {
    let fft_size = 400;
    let hop_size = 160;
    let mut stft = Spectrogram::new(fft_size, hop_size);
    let mut mel = MelSpectrogram::new(fft_size, sampling_rate, n_mels);
    let mut mel_frames: Vec<ndarray::Array2<f64>> = Vec::new();
    for chunk in pcm_16k_mono.chunks(hop_size) {
        let mut hop = vec![0.0f32; hop_size];
        hop[..chunk.len()].copy_from_slice(chunk);
        if let Some(fft_frame) = stft.add(&hop) {
            let mel_frame = mel.add(&fft_frame);
            mel_frames.push(mel_frame);
        }
    }
    let frames: Vec<f32> = interleave_frames(&mel_frames, false, 100);
    let n_frames = frames.len() / n_mels;
    (frames, n_frames)
}
```
-/

/-- Embedding of Rust's `slice::chunks` with chunk size `n + 1` (Rust
panics on chunk size 0, so positivity is structural here): consecutive
chunks of `n + 1` elements, the last one possibly shorter, none empty. -/
def chunksOf {α : Type} (n : Nat) : List α → List (List α)
  | [] => []
  | x :: xs => ((x :: xs).take (n + 1)) :: chunksOf n ((x :: xs).drop (n + 1))
termination_by l => l.length
decreasing_by simp; omega

theorem length_chunksOf {α : Type} (n : Nat) (l : List α) :
    (chunksOf n l).length = (l.length + n) / (n + 1) := by
  induction l using chunksOf.induct n with
  | case1 => simp [chunksOf, Nat.div_eq_of_lt]
  | case2 x xs ih =>
    rw [chunksOf]
    simp only [List.length_cons, List.drop_succ_cons, List.length_drop] at ih ⊢
    rw [ih]
    rcases Nat.lt_or_ge (xs.length) (n + 1) with hlt | hge
    · have h1 : xs.length - n + n = n ∨ xs.length - n + n = xs.length := by omega
      have h2 : (xs.length + 1 + n) / (n + 1) = 1 := by
        rw [Nat.div_eq_of_lt_le] <;> omega
      rcases h1 with h1 | h1 <;>
        rw [h1, h2] <;> rw [Nat.div_eq_of_lt (by omega)]
    · have h3 : xs.length + 1 + n = (xs.length - n + n) + (n + 1) := by omega
      rw [h3, Nat.add_div_right _ (Nat.succ_pos n)]

theorem join_chunksOf {α : Type} (n : Nat) (l : List α) :
    (chunksOf n l).flatten = l := by
  induction l using chunksOf.induct n with
  | case1 => simp [chunksOf]
  | case2 x xs ih =>
    have ih2 : (chunksOf n ((x :: xs).drop (n + 1))).flatten =
        (x :: xs).drop (n + 1) := by simpa using ih
    rw [chunksOf, List.flatten_cons, ih2, List.take_append_drop]

theorem length_le_of_mem_chunksOf {α : Type} (n : Nat) (l : List α)
    (c : List α) (hc : c ∈ chunksOf n l) : c.length ≤ n + 1 := by
  induction l using chunksOf.induct n with
  | case1 => simp [chunksOf] at hc
  | case2 x xs ih =>
    rw [chunksOf] at hc
    rcases List.mem_cons.mp hc with h | h
    · subst h; simp
    · exact ih h

/-- Window size and hop size fixed by `pcm_to_mel_frames_flat`. -/
def fftSize : Nat := 400

/-- Hop size fixed by `pcm_to_mel_frames_flat`. -/
def hopSize : Nat := 160

/-- The zero-padding of one chunk to a full 160-sample hop, exactly the
loop body `let mut hop = vec![0.0f32; hop_size]; hop[..chunk.len()]
.copy_from_slice(chunk);`. -/
def padHop (c : List ℚ) : List ℚ := c ++ List.replicate (hopSize - c.length) 0

/-- The sequence of zero-padded 160-sample hops the loop feeds to the
spectrogram, in input order (`pcm.chunks(160)` with tail padding). -/
def paddedHops (pcm : List ℚ) : List (List ℚ) :=
  (chunksOf (hopSize - 1) pcm).map padHop

/-- Modelled from the spec: the mel_spec crate's `Spectrogram::add` and
`MelSpectrogram::add` are external library code not in this repository.
Per the spec's Spectral Framer and Mel Projector contracts, every
160-sample hop fed to the spectrogram yields exactly one spectral frame
(the window completed from context and zero padding) and each frame
projects onto the filterbank as one `nMels`-length energy vector. The
individual band energies are irrelevant to every claim here and are
modelled as the hop's total energy in every band. -/
def melProject (nMels : Nat) (w : List ℚ) : List ℚ :=
  (List.range nMels).map (fun _ => (w.map (fun x => x * x)).sum)

/-- Modelled from the spec: the mel_spec crate's `interleave_frames`
concatenates the per-frame vectors in frame order into one flat time-major
sequence (the spec's Assembler contract). -/
def interleave_frames (melFrames : List (List ℚ)) : List ℚ :=
  melFrames.flatten

/-- Embedding of `pcm_to_mel_frames_flat`: chunk the PCM into 160-sample
hops (tail zero-padded), produce one mel frame per hop, flatten in frame
order, and compute `n_frames = frames.len() / n_mels` by `usize` division. -/
def pcm_to_mel_frames_flat (pcm : List ℚ) (nMels : Nat) : List ℚ × Nat :=
  let melFrames := (paddedHops pcm).map (melProject nMels)
  let frames := interleave_frames melFrames
  (frames, frames.length / nMels)

theorem length_melProject (nMels : Nat) (w : List ℚ) :
    (melProject nMels w).length = nMels := by
  simp [melProject]

theorem length_join_map_const {α : Type} (f : List α → List ℚ) (k : Nat)
    (hf : ∀ a, (f a).length = k) (l : List (List α)) :
    ((l.map f).flatten).length = l.length * k := by
  induction l with
  | nil => simp
  | cons a l ih => simp [ih, hf a, Nat.succ_mul, Nat.add_comm]

theorem length_paddedHops (pcm : List ℚ) :
    (paddedHops pcm).length = (pcm.length + 159) / 160 := by
  rw [paddedHops, List.length_map, length_chunksOf]
  norm_num [hopSize]

theorem flat_length (pcm : List ℚ) (nMels : Nat) :
    (pcm_to_mel_frames_flat pcm nMels).1.length =
      ((pcm.length + 159) / 160) * nMels := by
  rw [pcm_to_mel_frames_flat]
  simp only [interleave_frames]
  rw [length_join_map_const (melProject nMels) nMels (length_melProject nMels)
    (paddedHops pcm), length_paddedHops]

theorem reported_frames_eq (pcm : List ℚ) (nMels : Nat) (hpos : 0 < nMels) :
    (pcm_to_mel_frames_flat pcm nMels).2 = (pcm.length + 159) / 160 := by
  show (pcm_to_mel_frames_flat pcm nMels).1.length / nMels = _
  rw [flat_length, Nat.mul_div_cancel _ hpos]

/-- C1 — For PCM input of length L, the framer produces exactly
⌈L / 160⌉ = (L + 159) / 160 mel frames, one per hop in hop order; the
reported frame count equals it; every hop handed to the spectrogram is a
full 160-sample window (the final partial chunk is zero-padded by
`padHop`); and the chunks partition the input, so no tail samples are
dropped. -/
theorem pcm_to_mel_frame_count (pcm : List ℚ) (nMels : Nat)
    (hpos : 0 < nMels) :
    ((paddedHops pcm).map (melProject nMels)).length = (pcm.length + 159) / 160 ∧
    (pcm_to_mel_frames_flat pcm nMels).2 = (pcm.length + 159) / 160 ∧
    (∀ w ∈ paddedHops pcm, w.length = hopSize) ∧
    (chunksOf (hopSize - 1) pcm).flatten = pcm := by
  refine ⟨by rw [List.length_map, length_paddedHops],
    reported_frames_eq pcm nMels hpos, ?_, join_chunksOf _ pcm⟩
  · intro w hw
    rw [paddedHops] at hw
    obtain ⟨c, hc, rfl⟩ := List.mem_map.mp hw
    have hle := length_le_of_mem_chunksOf _ pcm c hc
    simp only [hopSize] at hle
    simp only [padHop, List.length_append, List.length_replicate, hopSize]
    omega

/-- C1 witness: a 3-sample input yields exactly one frame. -/
theorem pcm_to_mel_frame_count_witness :
    (pcm_to_mel_frames_flat [1, 2, 3] 80).2 =
      (([1, 2, 3] : List ℚ).length + 159) / 160 :=
  (pcm_to_mel_frame_count [1, 2, 3] 80 (by decide)).2.1

/-- C2 — The flat mel sequence's length is exactly
`n_frames * n_mels` where `n_frames` is the reported `usize` quotient
`frames.len() / n_mels`, i.e. the division leaves no remainder. -/
theorem mel_flat_length_exact (pcm : List ℚ) (nMels : Nat)
    (hpos : 0 < nMels) :
    (pcm_to_mel_frames_flat pcm nMels).1.length =
      (pcm_to_mel_frames_flat pcm nMels).2 * nMels ∧
    (pcm_to_mel_frames_flat pcm nMels).1.length % nMels = 0 := by
  have h1 := flat_length pcm nMels
  have h2 : (pcm_to_mel_frames_flat pcm nMels).2 = (pcm.length + 159) / 160 :=
    reported_frames_eq pcm nMels hpos
  refine ⟨by rw [h1, h2], by rw [h1]; exact Nat.mul_mod_left _ _⟩

/-- C2 witness: at a 3-sample input with 80 mel bands. -/
theorem mel_flat_length_exact_witness :
    (pcm_to_mel_frames_flat [1, 2, 3] 80).1.length =
      (pcm_to_mel_frames_flat [1, 2, 3] 80).2 * 80 :=
  (mel_flat_length_exact [1, 2, 3] 80 (by decide)).1

/-! ## Manifest builder — src/shout_tools/src/tsv_to_jsonl.rs

The Rust source's row loop:
```
for result in rdr.deserialize::<Row>() {
    let row = result.context("Failed to parse a TSV row")?;
    let text = row.prompt.trim();
    if text.is_empty() { skipped_empty_prompt += 1; continue; }
    let audio_path = audios_dir.join(row.audio_file.trim());
    if !audio_path.exists() { skipped_missing_audio += 1; continue; }
    let duration_ms = row.duration_ms.trim().parse::<u32>().ok();
    let line = ManifestLine \x7b audio_path: ..., text: text.to_string(), duration_ms \x7d;
    serde_json::to_writer(&mut writer, &line)?;
    writer.write_all(b"\n")?;
    kept += 1;
}
```
The filesystem is modelled as a boolean existence predicate, and the
line-delimited JSON output as the ordered list of `ManifestLine` records
written (serde serialises each record to exactly one line). Rows are taken
as already deserialised, as the claim speaks of input rows. -/

/-- The TSV row shape deserialised by the source. -/
structure Row where
  client_id : String
  audio_file : String
  duration_ms : String
  prompt_id : String
  prompt : String
  transcription : String
  votes : String
  age : String
  gender : String
  language : String
  split : String
  char_per_sec : String
  quality_tags : String

/-- One emitted manifest record, the source's `ManifestLine`. -/
structure ManifestLine where
  audio_path : String
  text : String
  duration_ms : Option Nat
deriving DecidableEq

/-- Embedding of `PathBuf::join` of the audios directory with a file name
(the platform separator is immaterial to the claims). -/
def joinPath (dir file : String) : String := dir ++ "/" ++ file

/-- Embedding of Rust's `str::parse::<u32>`: an optional leading plus sign,
then one or more ASCII digits, with the value required to fit in 32 bits;
`.ok()` turns failure into `none`. -/
def parseU32 (s : String) : Option Nat :=
  let t := if s.startsWith "+" then s.drop 1 else s
  if t.length != 0 && t.all Char.isDigit then
    let v := t.foldl (fun a ch => a * 10 + (ch.toNat - 48)) 0
    if v < 4294967296 then some v else none
  else none

/-- The mutable state of the conversion loop: emitted lines in order and
the three counters. -/
structure ConvState where
  emitted : List ManifestLine
  kept : Nat
  skippedMissingAudio : Nat
  skippedEmptyPrompt : Nat
deriving DecidableEq

/-- Embedding of one iteration of the row loop of `convert`. -/
def convertStep (audiosDir : String) (fsExists : String → Bool)
    (st : ConvState) (row : Row) : ConvState :=
  let text := row.prompt.trim
  if text.isEmpty then
    { st with skippedEmptyPrompt := st.skippedEmptyPrompt + 1 }
  else
    let audioPath := joinPath audiosDir row.audio_file.trim
    if !fsExists audioPath then
      { st with skippedMissingAudio := st.skippedMissingAudio + 1 }
    else
      { st with
        emitted := st.emitted ++
          [⟨audioPath, text, parseU32 row.duration_ms.trim⟩],
        kept := st.kept + 1 }

/-- Embedding of the row loop of `convert` over the deserialised rows. -/
def convert (audiosDir : String) (fsExists : String → Bool)
    (rows : List Row) : ConvState :=
  rows.foldl (convertStep audiosDir fsExists) ⟨[], 0, 0, 0⟩

/-- Following the spec's words: a row is kept iff its trimmed transcript
text is non-blank and its resolved audio file exists on disk. -/
def specKeepRow (audiosDir : String) (fsExists : String → Bool)
    (r : Row) : Bool :=
  !r.prompt.trim.isEmpty && fsExists (joinPath audiosDir r.audio_file.trim)

/-- Following the spec's words: the JSON object emitted for a kept row
holds the resolved audio path, the transcript text, and the optional
duration in milliseconds. -/
def specLineOfRow (audiosDir : String) (r : Row) : ManifestLine :=
  ⟨joinPath audiosDir r.audio_file.trim, r.prompt.trim,
    parseU32 r.duration_ms.trim⟩

theorem convert_foldl_characterisation (audiosDir : String)
    (fsExists : String → Bool) (rows : List Row) : ∀ st : ConvState,
    (rows.foldl (convertStep audiosDir fsExists) st).emitted =
      st.emitted ++ (rows.filter (specKeepRow audiosDir fsExists)).map
        (specLineOfRow audiosDir) ∧
    (rows.foldl (convertStep audiosDir fsExists) st).kept =
      st.kept + (rows.filter (specKeepRow audiosDir fsExists)).length ∧
    (rows.foldl (convertStep audiosDir fsExists) st).skippedEmptyPrompt =
      st.skippedEmptyPrompt +
        (rows.filter (fun r => r.prompt.trim.isEmpty)).length ∧
    (rows.foldl (convertStep audiosDir fsExists) st).skippedMissingAudio =
      st.skippedMissingAudio +
        (rows.filter (fun r => !r.prompt.trim.isEmpty &&
          !fsExists (joinPath audiosDir r.audio_file.trim))).length := by
  induction rows with
  | nil => intro st; simp
  | cons r rows ih =>
    rintro ⟨em, k, sm, se⟩
    simp only [List.foldl_cons]
    by_cases h1 : r.prompt.trim.isEmpty
    · have hstep : convertStep audiosDir fsExists ⟨em, k, sm, se⟩ r =
          ⟨em, k, sm, se + 1⟩ := by
        simp [convertStep, h1]
      rw [hstep]
      obtain ⟨ih1, ih2, ih3, ih4⟩ := ih ⟨em, k, sm, se + 1⟩
      refine ⟨?_, ?_, ?_, ?_⟩
      · rw [ih1]; simp [List.filter_cons, specKeepRow, h1]
      · rw [ih2]; simp [List.filter_cons, specKeepRow, h1]
      · rw [ih3]; simp [List.filter_cons, h1]; omega
      · rw [ih4]; simp [List.filter_cons, h1]
    · by_cases h2 : fsExists (joinPath audiosDir r.audio_file.trim)
      · have hstep : convertStep audiosDir fsExists ⟨em, k, sm, se⟩ r =
            ⟨em ++ [⟨joinPath audiosDir r.audio_file.trim, r.prompt.trim,
              parseU32 r.duration_ms.trim⟩], k + 1, sm, se⟩ := by
          simp [convertStep, h1, h2]
        rw [hstep]
        obtain ⟨ih1, ih2, ih3, ih4⟩ := ih
          ⟨em ++ [⟨joinPath audiosDir r.audio_file.trim, r.prompt.trim,
            parseU32 r.duration_ms.trim⟩], k + 1, sm, se⟩
        refine ⟨?_, ?_, ?_, ?_⟩
        · rw [ih1]
          simp [List.filter_cons, specKeepRow, specLineOfRow, h1, h2]
        · rw [ih2]; simp [List.filter_cons, specKeepRow, h1, h2]; omega
        · rw [ih3]; simp [List.filter_cons, h1]
        · rw [ih4]; simp [List.filter_cons, h1, h2]
      · have hstep : convertStep audiosDir fsExists ⟨em, k, sm, se⟩ r =
            ⟨em, k, sm + 1, se⟩ := by
          simp [convertStep, h1, h2]
        rw [hstep]
        obtain ⟨ih1, ih2, ih3, ih4⟩ := ih ⟨em, k, sm + 1, se⟩
        refine ⟨?_, ?_, ?_, ?_⟩
        · rw [ih1]; simp [List.filter_cons, specKeepRow, h1, h2]
        · rw [ih2]; simp [List.filter_cons, specKeepRow, h1, h2]
        · rw [ih3]; simp [List.filter_cons, h1]
        · rw [ih4]; simp [List.filter_cons, h1, h2]; omega

/-- C9 — The manifest builder skips exactly the rows with blank transcript
text (counted by the empty-prompt counter) and, among the rest, the rows
whose resolved audio file does not exist (counted by the missing-audio
counter); it emits exactly one record per kept row, in row order, holding
the resolved audio path, the trimmed transcript text, and the optional
parsed duration in milliseconds; and the kept counter equals the number of
emitted records. -/
theorem convert_manifest (audiosDir : String) (fsExists : String → Bool)
    (rows : List Row) :
    (convert audiosDir fsExists rows).emitted =
      (rows.filter (specKeepRow audiosDir fsExists)).map
        (specLineOfRow audiosDir) ∧
    (convert audiosDir fsExists rows).kept =
      (convert audiosDir fsExists rows).emitted.length ∧
    (convert audiosDir fsExists rows).skippedEmptyPrompt =
      (rows.filter (fun r => r.prompt.trim.isEmpty)).length ∧
    (convert audiosDir fsExists rows).skippedMissingAudio =
      (rows.filter (fun r => !r.prompt.trim.isEmpty &&
        !fsExists (joinPath audiosDir r.audio_file.trim))).length := by
  obtain ⟨h1, h2, h3, h4⟩ :=
    convert_foldl_characterisation audiosDir fsExists rows ⟨[], 0, 0, 0⟩
  refine ⟨by simpa using h1, ?_, by simpa using h3, by simpa using h4⟩
  rw [convert] at *
  rw [h1, h2]
  simp

end Shout
